import Mathlib

/-!
# Verification of the granola export tool

Shallow embedding of the granola CLI (Go) core: the incremental sync engine
(`internal/sync`, embedded from `internal/converter/converter.go` in this
source snapshot), the filename policy, the content-resolution chain of
`cmd/export.go`, the writer-package filename disambiguator, and the
ProseMirror tree-to-text converter (`internal/prosemirror`).

Go strings are modelled as `List Char` (byte strings; the repository's
inputs are ASCII in all code paths the claims exercise).  Go `time.Time`
values are modelled as integers, with `t.After(u)` becoming `t > u`.
Fallible filesystem operations return `Except String`.
-/

set_option autoImplicit false

/-- Go strings, modelled as lists of characters. -/
abbrev Str := List Char

/-- Characters treated as whitespace by Go's `strings.TrimSpace` (ASCII part). -/
def isSpaceChar (c : Char) : Bool :=
  c = ' ' || c = '\t' || c = '\n' || c = '\x0d' || c = '\x0b' || c = '\x0c'

/-- Go `strings.TrimSpace`. -/
def trimSpace (s : Str) : Str :=
  ((s.dropWhile isSpaceChar).reverse.dropWhile isSpaceChar).reverse

/-- Membership of a character in the regexp class of the source's
`invalidFileChars` pattern: the nine reserved characters plus controls. -/
def isInvalidFileChar (c : Char) : Bool :=
  c = '<' || c = '>' || c = ':' || c = '"' || c = '/' || c = '\\' ||
  c = '|' || c = '?' || c = '*' || c.val ≤ 0x1f

/-- `invalidFileChars.ReplaceAllString(name, "_")`. -/
def replaceInvalidChars (s : Str) : Str :=
  s.map (fun c => if isInvalidFileChar c then '_' else c)

/-- `regexp.MustCompile("_+").ReplaceAllString(name, "_")`: collapse runs of
underscores to a single underscore. -/
def collapseUnderscores : Str → Str
  | [] => []
  | '_' :: '_' :: rest => collapseUnderscores ('_' :: rest)
  | c :: rest => c :: collapseUnderscores rest

/-- Go `strings.Trim(name, "_")`. -/
def trimUnderscores (s : Str) : Str :=
  ((s.dropWhile (· = '_')).reverse.dropWhile (· = '_')).reverse

/-- Go `strings.TrimSuffix`. -/
def trimSuffix (s suffix : Str) : Str :=
  if suffix.isSuffixOf s then s.take (s.length - suffix.length) else s

/-- Index of the last occurrence of `c`, Go `strings.LastIndex` (`none` for -1). -/
def lastIdx (c : Char) : Str → Option Nat
  | [] => none
  | x :: xs =>
    match lastIdx c xs with
    | some i => some (i + 1)
    | none => if x = c then some 0 else none

namespace GranolaSync

/-- `Writer.generateFilename` from the sync package: sanitize the title,
fall back to "untitled", truncate to 80 characters, and append an
underscore, the first 8 characters of the id, and the ".txt" extension. -/
def generateFilename (title id : Str) : Str :=
  let name := trimSpace title
  let name := if name = [] then "untitled".data else name
  let name := replaceInvalidChars name
  let name := collapseUnderscores name
  let name := trimUnderscores name
  let name := if name = [] then "untitled".data else name
  let name := if name.length > 80 then name.take 80 else name
  let shortID := if id.length ≥ 8 then id.take 8 else id
  name ++ ('_' :: shortID) ++ ".txt".data

/-- `extractIDFromFilename` from the sync package: strip the ".txt"
extension, locate the last underscore, and return the first 8 characters of
what follows it (empty when there is no underscore, the underscore is last,
or fewer than 8 characters follow). -/
def extractIDFromFilename (filename : Str) : Str :=
  let name := trimSuffix filename ".txt".data
  match lastIdx '_' name with
  | none => []
  | some i =>
    if i = name.length - 1 then []
    else
      let id := name.drop (i + 1)
      if id.length ≥ 8 then id.take 8 else []

/-- `sanitizeFolderName` from the sync package. -/
def sanitizeFolderName (name : Str) : Str :=
  let name := trimSpace name
  let name := replaceInvalidChars name
  let name := collapseUnderscores name
  let name := trimUnderscores name
  let name := if name = [] then "unnamed_folder".data else name
  if name.length > 100 then name.take 100 else name

/-- A destination path, relative to the output root, as a list of path
components (`filepath.Join` of the root, an optional folder, and a name). -/
abbrev FPath := List Str

/-- `Writer.getTargetPaths`: one path per entry of the `folders` list
(no deduplication in the source), or a single root path when the list is
empty. -/
def getTargetPaths (folders : List Str) (filename : Str) : List FPath :=
  if folders = [] then [[filename]]
  else folders.map (fun folder => [sanitizeFolderName folder, filename])

end GranolaSync


/-! ## ProseMirror document model (`internal/api`) -/

/-- `api.ProseMirrorNode`: a kind tag, the "level" attribute when present as
a number (the only attribute the converter reads), optional text, and
optional children (`none` models a nil Go slice, `some []` an empty one). -/
inductive PMNode where
  | node : String → Option Nat → Str → Option (List PMNode) → PMNode
deriving Repr

/-- The node's `Type` field. -/
def PMNode.ntype : PMNode → String
  | .node t _ _ _ => t

/-- The node's `Attrs["level"]` as a number, when present. -/
def PMNode.level : PMNode → Option Nat
  | .node _ l _ _ => l

/-- The node's `Text` field. -/
def PMNode.text : PMNode → Str
  | .node _ _ tx _ => tx

/-- The node's `Content` field. -/
def PMNode.content : PMNode → Option (List PMNode)
  | .node _ _ _ c => c

/-- `api.ProseMirrorDoc`: root type tag plus optional children. -/
structure PMDoc where
  dtype : String
  content : Option (List PMNode)
deriving Repr

/-- Go `strings.Join`. -/
def joinStr (sep : Str) : List Str → Str
  | [] => []
  | [s] => s
  | s :: rest => s ++ sep ++ joinStr sep rest

/-- Concatenation of a list of strings (`strings.Join` with `""`). -/
def concatStrs (xs : List Str) : Str :=
  xs.foldr (· ++ ·) []

/-- Go `strings.HasPrefix(s, "\n")`. -/
def startsWithNewline : Str → Bool
  | '\n' :: _ => true
  | _ => false

/-- The `firstText` scan of the converter's `bulletList` case: the first
rendered child that does not start with a newline. -/
def firstNonNewline : List Str → Str
  | [] => []
  | s :: rest => if startsWithNewline s then firstNonNewline rest else s

/-- The converter's final regex step: collapse runs of 3 or more newlines
down to exactly two. -/
def collapseNewlines : Str → Str
  | '\n' :: '\n' :: '\n' :: rest => collapseNewlines ('\n' :: '\n' :: rest)
  | c :: rest => c :: collapseNewlines rest
  | [] => []

namespace Prosemirror

mutual

/-- `processNode` from `internal/prosemirror`: recursively renders one
ProseMirror node to Markdown, with tab indentation for nested lists and
blank lines after top-level blocks. -/
def processNode : PMNode → Nat → Bool → Str
  | .node ntype lvl txt cont, indentLevel, isTopLevel =>
    let textContent :=
      match cont with
      | some (c :: cs) =>
        if ntype = "listItem" then renderItemChildren (c :: cs) indentLevel
        else renderChildren (c :: cs) indentLevel
      | _ => txt
    if ntype = "heading" then
      let level := lvl.getD 1
      List.replicate level '#' ++ (' ' :: trimSpace textContent) ++
        (if isTopLevel then "\n\n".data else "\n".data)
    else if ntype = "paragraph" then
      textContent ++ (if isTopLevel then "\n\n".data else [])
    else if ntype = "bulletList" then
      match cont with
      | none => []
      | some items =>
        joinStr "\n".data (buildItems items indentLevel) ++
          (if isTopLevel then "\n\n".data else [])
    else if ntype = "text" then txt
    else textContent

/-- The child-concatenation of `processNode`'s first switch for every kind
except `listItem` (children rendered at the same indent, non-top-level). -/
def renderChildren : List PMNode → Nat → Str
  | [], _ => []
  | c :: cs, indentLevel =>
    processNode c indentLevel false ++ renderChildren cs indentLevel

/-- The `listItem` case of the first switch: nested `bulletList` children
are rendered one indent level deeper than their siblings. -/
def renderItemChildren : List PMNode → Nat → Str
  | [], _ => []
  | c :: cs, indentLevel =>
    (if c.ntype = "bulletList" then processNode c (indentLevel + 1) false
     else processNode c indentLevel false) ++ renderItemChildren cs indentLevel

/-- The item loop of `processNode`'s `bulletList` case: each `listItem`
child becomes `"\t"*depth ++ "- " ++ trimmed first inline text ++ nested
lists`; children of other kinds are skipped. -/
def buildItems : List PMNode → Nat → List Str
  | [], _ => []
  | .node nt _ _ cont :: rest, indentLevel =>
    if nt = "listItem" then
      let pair :=
        match cont with
        | some cs => splitItemChildren cs indentLevel
        | none => ([], [])
      let firstText := firstNonNewline pair.1
      (List.replicate indentLevel '\t' ++ ('-' :: ' ' :: trimSpace firstText) ++
        concatStrs pair.2) :: buildItems rest indentLevel
    else buildItems rest indentLevel

/-- The inner loop of the `bulletList` case: renders non-list children at
the current indent (collected as `childContents`) and nested `bulletList`
children one level deeper, each prefixed with a newline (`nestedLists`). -/
def splitItemChildren : List PMNode → Nat → (List Str × List Str)
  | [], _ => ([], [])
  | c :: cs, indentLevel =>
    let rest := splitItemChildren cs indentLevel
    if c.ntype = "bulletList" then
      (rest.1, ('\n' :: processNode c (indentLevel + 1) false) :: rest.2)
    else
      (processNode c indentLevel false :: rest.1, rest.2)

end

/-- `ConvertToMarkdown` from `internal/prosemirror`: nil doc, wrong root
type, or nil children give `""`; otherwise the children's renders are
concatenated, long newline runs collapsed, and the result trimmed with one
trailing newline appended. -/
def ConvertToMarkdown (doc : Option PMDoc) : Str :=
  match doc with
  | none => []
  | some d =>
    if d.dtype ≠ "doc" then []
    else
      match d.content with
      | none => []
      | some ns =>
        let result := concatStrs (ns.map (fun n => processNode n 0 true))
        let result := collapseNewlines result
        trimSpace result ++ ['\n']

mutual

/-- Modelled from the spec: helper for `ConvertToPlainText`, whose Go
source (`internal/prosemirror`) is not under `src/`.  Per §4.1 each node
renders its text (or its children's concatenation), block kinds
(`heading`, `paragraph`) followed by a newline. -/
def plainNode : PMNode → Str
  | .node ntype _ txt cont =>
    let body :=
      match cont with
      | some (c :: cs) => plainList (c :: cs)
      | _ => txt
    if ntype = "heading" || ntype = "paragraph" then body ++ "\n".data else body

/-- Modelled from the spec: children concatenation for `plainNode`. -/
def plainList : List PMNode → Str
  | [] => []
  | c :: cs => plainNode c ++ plainList cs

end

/-- Modelled from the spec: `prosemirror.ConvertToPlainText` is called by
`cmd/export.go` and `internal/transcript` but its source file is not under
`src/`.  §4.1 specifies a total tree-to-text render: absent trees, wrong
root kinds, and childless roots yield `""`; otherwise the children render
to flat text, trimmed, with one trailing newline. -/
def ConvertToPlainText (doc : Option PMDoc) : Str :=
  match doc with
  | none => []
  | some d =>
    if d.dtype ≠ "doc" then []
    else
      match d.content with
      | none => []
      | some [] => []
      | some ns => trimSpace (plainList ns) ++ ['\n']

end Prosemirror

/-! ## Content resolution (`cmd/export.go`) -/

/-- `api.LastViewedPanel`, restricted to the fields content resolution
reads: the parsed ProseMirror content and the raw HTML markup. -/
structure LastViewedPanel where
  content : Option PMDoc
  originalContent : Str
deriving Repr

/-- `api.Document`, restricted to the fields content resolution reads. -/
structure ApiDocument where
  id : Str
  title : Str
  content : Str
  notesPlain : Str
  notes : Option PMDoc
  lastViewedPanel : Option LastViewedPanel
deriving Repr

namespace GranolaCmd

/-- `getNotesContent` from `cmd/export.go`: the content-resolution chain.
NotesPlain when non-empty; else the Notes tree's plain-text render whenever
the tree is present; else the last-viewed panel's tree render whenever that
tree is present; else the panel's raw HTML, returned as-is, when non-empty;
else the legacy Content field. -/
def getNotesContent (doc : ApiDocument) : Str :=
  if doc.notesPlain ≠ [] then doc.notesPlain
  else
    match doc.notes with
    | some n => Prosemirror.ConvertToPlainText (some n)
    | none =>
      match doc.lastViewedPanel with
      | some panel =>
        match panel.content with
        | some c => Prosemirror.ConvertToPlainText (some c)
        | none =>
          if panel.originalContent ≠ [] then panel.originalContent
          else doc.content
      | none => doc.content

end GranolaCmd

/-! ## Filename disambiguation (`internal/writer`) -/

/-- Lookup in an association list, Go map indexing. -/
def lookupAssoc (l : List (Str × Nat)) (k : Str) : Option Nat :=
  match l.find? (fun p => p.1 = k) with
  | some p => some p.2
  | none => none

/-- Go `used[filename]++`: increment the counter for a key, starting at 0. -/
def bumpAssoc (l : List (Str × Nat)) (k : Str) : List (Str × Nat) :=
  match l with
  | [] => [(k, 1)]
  | (k2, v) :: rest => if k2 = k then (k2, v + 1) :: rest else (k2, v) :: bumpAssoc rest k

namespace GranolaWriter

/-- `makeUnique` from `internal/writer`: if the candidate name has been
seen `count` times, return the candidate with `_<count+1>` appended;
otherwise return it unchanged. -/
def makeUnique (filename : Str) (used : List (Str × Nat)) : Str :=
  match lookupAssoc used filename with
  | some count => filename ++ ('_' :: (toString (count + 1)).data)
  | none => filename

/-- The filename-assignment loop of `writer.Write`: for each candidate in
order, assign `makeUnique` of it, then increment the counter of the
*assigned* name (`usedFilenames[filename]++` runs after reassignment). -/
def assignFilenames : List Str → List (Str × Nat) → List Str
  | [], _ => []
  | t :: ts, used =>
    let fn := makeUnique t used
    fn :: assignFilenames ts (bumpAssoc used fn)

end GranolaWriter


/-! ## Filesystem model

The sync engine runs against an `afero.Fs`.  We model the output-root
directory as a sorted list of named entries, each a file (content plus
modification time, an integer) or a subdirectory.  `afero.Walk` and
`afero.ReadDir` list entries sorted by name, which the sorted-insert
invariant reproduces.  Directory permissions and directory mtimes are not
modelled (`statPath` reports 0 for directories). -/

/-- A directory tree: files carry name, content and mtime, directories
carry a name and their entries. -/
inductive FsNode where
  | file : Str → Str → Int → FsNode
  | dir : Str → List FsNode → FsNode
deriving Repr

/-- The entry list of one directory. -/
abbrev Entries := List FsNode

/-- The entry's name. -/
def FsNode.name : FsNode → Str
  | .file n _ _ => n
  | .dir n _ => n

/-- Byte-wise lexicographic order on names, as Go string comparison. -/
def strLe : Str → Str → Bool
  | [], _ => true
  | _ :: _, [] => false
  | x :: xs, y :: ys => if x = y then strLe xs ys else decide (x < y)

/-- Insert or replace a named entry, keeping entries sorted by name. -/
def insertEntry (node : FsNode) : Entries → Entries
  | [] => [node]
  | e :: rest =>
    if e.name = node.name then node :: rest
    else if strLe node.name e.name then node :: e :: rest
    else e :: insertEntry node rest

/-- Look up a named entry. -/
def lookupEntry (name : Str) : Entries → Option FsNode
  | [] => none
  | e :: rest => if e.name = name then some e else lookupEntry name rest

/-- Drop a named entry. -/
def removeEntryName (name : Str) (es : Entries) : Entries :=
  es.filter (fun e => e.name ≠ name)

/-- `fs.MkdirAll`: create every directory along the path, succeeding when
they already exist, failing when a file is in the way. -/
def mkdirAll : List Str → Entries → Except String Entries
  | [], es => .ok es
  | n :: rest, es =>
    match lookupEntry n es with
    | some (.dir _ sub) => do
      let sub2 ← mkdirAll rest sub
      .ok (insertEntry (.dir n sub2) es)
    | some (.file _ _ _) => .error "mkdir: not a directory"
    | none => do
      let sub2 ← mkdirAll rest []
      .ok (insertEntry (.dir n sub2) es)

/-- `afero.WriteFile`: create or truncate the file at the path; the parent
directory must exist, and the target must not be a directory. -/
def writeFile : List Str → Str → Int → Entries → Except String Entries
  | [], _, _, _ => .error "write: empty path"
  | [n], content, now, es =>
    match lookupEntry n es with
    | some (.dir _ _) => .error "write: is a directory"
    | _ => .ok (insertEntry (.file n content now) es)
  | n :: rest, content, now, es =>
    match lookupEntry n es with
    | some (.dir _ sub) => do
      let sub2 ← writeFile rest content now sub
      .ok (insertEntry (.dir n sub2) es)
    | _ => .error "write: no such directory"

/-- `fs.Remove`: delete a file or an empty directory. -/
def removePath : List Str → Entries → Except String Entries
  | [], _ => .error "remove: empty path"
  | [n], es =>
    match lookupEntry n es with
    | some (.file _ _ _) => .ok (removeEntryName n es)
    | some (.dir _ sub) =>
      if sub.isEmpty then .ok (removeEntryName n es)
      else .error "remove: directory not empty"
    | none => .error "remove: no such file"
  | n :: rest, es =>
    match lookupEntry n es with
    | some (.dir _ sub) => do
      let sub2 ← removePath rest sub
      .ok (insertEntry (.dir n sub2) es)
    | _ => .error "remove: no such directory"

/-- The result of `fs.Stat`: directory flag and modification time. -/
structure FsInfo where
  isDir : Bool
  mtime : Int
deriving Repr, DecidableEq

/-- `fs.Stat`: `none` models a stat error (the path does not exist). -/
def statPath : List Str → Entries → Option FsInfo
  | [], _ => some ⟨true, 0⟩
  | [n], es =>
    match lookupEntry n es with
    | some (.file _ _ m) => some ⟨false, m⟩
    | some (.dir _ _) => some ⟨true, 0⟩
    | none => none
  | n :: rest, es =>
    match lookupEntry n es with
    | some (.dir _ sub) => statPath rest sub
    | _ => none

mutual

/-- All files below a directory, in the pre-order, name-sorted traversal
of `afero.Walk`: full relative path, content, and mtime. -/
def walkFiles : Entries → List (GranolaSync.FPath × Str × Int)
  | [] => []
  | node :: rest => walkNode node ++ walkFiles rest

/-- The files contributed by one entry: a file is itself; a directory
contributes its descendants with the directory name prefixed. -/
def walkNode : FsNode → List (GranolaSync.FPath × Str × Int)
  | .file n c m => [([n], c, m)]
  | .dir n sub => (walkFiles sub).map (fun e => (n :: e.1, e.2))

end

namespace GranolaSync

/-- `sync.ExportDoc`. -/
structure ExportDoc where
  id : Str
  title : Str
  updatedAt : Int
  content : Str
  folders : List Str
deriving Repr

/-- `sync.SyncStats`. -/
structure SyncStats where
  added : Nat
  updated : Nat
  moved : Nat
  deleted : Nat
  skipped : Nat
deriving Repr, DecidableEq

/-- The zero-initialised `var stats SyncStats`. -/
def SyncStats.zero : SyncStats := ⟨0, 0, 0, 0, 0⟩

/-- The per-field accumulation at the end of `Sync`'s document loop. -/
def SyncStats.add (a b : SyncStats) : SyncStats :=
  ⟨a.added + b.added, a.updated + b.updated, a.moved + b.moved,
   a.deleted + b.deleted, a.skipped + b.skipped⟩

/-- The existing-file index: extracted id fragment to list of paths. -/
abbrev FileIndex := List (Str × List FPath)

/-- Index lookup (`existingFiles[doc.ID]`, nil when absent). -/
def indexLookup (idx : FileIndex) (k : Str) : List FPath :=
  match idx.find? (fun p => p.1 = k) with
  | some p => p.2
  | none => []

/-- `existingFiles[id] = append(existingFiles[id], path)`. -/
def indexAppend (idx : FileIndex) (k : Str) (path : FPath) : FileIndex :=
  match idx with
  | [] => [(k, [path])]
  | (k2, ps) :: rest =>
    if k2 = k then (k2, ps ++ [path]) :: rest
    else (k2, ps) :: indexAppend rest k path

/-- `delete(existingFiles, doc.ID)`. -/
def indexErase (idx : FileIndex) (k : Str) : FileIndex :=
  idx.filter (fun p => p.1 ≠ k)

/-- `Writer.scanExistingFiles`: walk the output tree; for every `.txt`
file whose name yields a non-empty extracted id fragment, record the path
under that fragment. -/
def scanExistingFiles (es : Entries) : FileIndex :=
  (walkFiles es).foldl (fun idx f =>
    match f.1.getLast? with
    | none => idx
    | some base =>
      if ".txt".data.isSuffixOf base then
        let id := extractIDFromFilename base
        if id ≠ [] then indexAppend idx id f.1 else idx
      else idx) []

/-- `Writer.shouldUpdateFile`: a stat failure yields `(true, nil)` — write;
otherwise write exactly when the document's update time is strictly newer
than the file's mtime. -/
def shouldUpdateFile (es : Entries) (filePath : FPath) (docUpdatedAt : Int) :
    Except String Bool :=
  match statPath filePath es with
  | none => .ok true
  | some info => .ok (docUpdatedAt > info.mtime)

/-- The write loop of `Writer.processDocument`: for each target path,
create its folder, then add (new path), conditionally update, or skip. -/
def writeTargets (doc : ExportDoc) (existingPaths : List FPath) (now : Int) :
    List FPath → Entries → SyncStats → Except String (Entries × SyncStats)
  | [], es, stats => .ok (es, stats)
  | targetPath :: rest, es, stats => do
    let es ← mkdirAll targetPath.dropLast es
    if existingPaths.contains targetPath then
      match shouldUpdateFile es targetPath doc.updatedAt with
      | .error e => .error e
      | .ok true => do
        let es ← writeFile targetPath doc.content now es
        writeTargets doc existingPaths now rest es
          { stats with updated := stats.updated + 1 }
      | .ok false =>
        writeTargets doc existingPaths now rest es
          { stats with skipped := stats.skipped + 1 }
    else do
      let es ← writeFile targetPath doc.content now es
      writeTargets doc existingPaths now rest es
        { stats with added := stats.added + 1 }

/-- The removal loop of `Writer.processDocument`: delete every existing
path that is not a target, counting each as Moved. -/
def removeOldPaths (targetPaths : List FPath) :
    List FPath → Entries → SyncStats → Except String (Entries × SyncStats)
  | [], es, stats => .ok (es, stats)
  | p :: rest, es, stats =>
    if targetPaths.contains p then removeOldPaths targetPaths rest es stats
    else do
      let es ← removePath p es
      removeOldPaths targetPaths rest es { stats with moved := stats.moved + 1 }

/-- `Writer.processDocument`: write/update/skip each target path, remove
stale paths, then clear the document's (full) id from the index. -/
def processDocument (doc : ExportDoc) (now : Int) (idx : FileIndex)
    (es : Entries) : Except String (FileIndex × Entries × SyncStats) := do
  let filename := generateFilename doc.title doc.id
  let existingPaths := indexLookup idx doc.id
  let targetPaths := getTargetPaths doc.folders filename
  let (es, stats) ← writeTargets doc existingPaths now targetPaths es .zero
  let (es, stats) ← removeOldPaths targetPaths existingPaths es stats
  .ok (indexErase idx doc.id, es, stats)

/-- Step 2 of `Writer.Sync`: process each document in order, accumulating
stats and aborting on the first error. -/
def processDocs (now : Int) :
    List ExportDoc → FileIndex → Entries → SyncStats →
    Except String (FileIndex × Entries × SyncStats)
  | [], idx, es, stats => .ok (idx, es, stats)
  | doc :: rest, idx, es, stats => do
    let (idx, es, dstats) ← processDocument doc now idx es
    processDocs now rest idx es (stats.add dstats)

/-- The inner orphan loop: delete every recorded path, counting Deleted. -/
def deletePaths : List FPath → Entries → SyncStats →
    Except String (Entries × SyncStats)
  | [], es, stats => .ok (es, stats)
  | p :: rest, es, stats => do
    let es ← removePath p es
    deletePaths rest es { stats with deleted := stats.deleted + 1 }

/-- Step 3 of `Writer.Sync`: for every id left in the index that is not in
the caller's valid-id set, delete all its recorded paths. -/
def sweepOrphans (allDocIDs : List Str) :
    FileIndex → Entries → SyncStats → Except String (Entries × SyncStats)
  | [], es, stats => .ok (es, stats)
  | (id, paths) :: rest, es, stats =>
    if allDocIDs.contains id then sweepOrphans allDocIDs rest es stats
    else do
      let (es, stats) ← deletePaths paths es stats
      sweepOrphans allDocIDs rest es stats

mutual

/-- `Writer.cleanEmptyFolders`: the `afero.Walk` visits directories
top-down in name order; a directory with zero entries is removed at its
visit, after which the walk's own re-read of that directory fails and the
error aborts the walk (the caller only logs it).  Hence at most one
directory is removed per run.  The Bool records whether the walk aborted. -/
def pruneDir : Entries → Entries × Bool
  | [] => ([], false)
  | node :: rest =>
    match pruneNode node with
    | (none, _) => (rest, true)
    | (some node2, true) => (node2 :: rest, true)
    | (some node2, false) =>
      let r := pruneDir rest
      (node2 :: r.1, r.2)

/-- The visit of one entry during the prune walk: files are untouched; an
empty directory is removed (`none`) and the walk aborts; a non-empty
directory keeps its (recursively visited) entries. -/
def pruneNode : FsNode → Option FsNode × Bool
  | .file n c m => (some (.file n c m), false)
  | .dir n cs =>
    if cs.isEmpty then (none, true)
    else
      let inner := pruneDir cs
      (some (.dir n inner.1), inner.2)

end

/-- `Writer.Sync`: index existing files, process each document, sweep
orphans, prune empty folders (failures there only logged). -/
def Sync (docs : List ExportDoc) (allDocIDs : List Str) (now : Int)
    (es : Entries) : Except String (SyncStats × Entries) := do
  let idx := scanExistingFiles es
  let (idx, es, stats) ← processDocs now docs idx es .zero
  let (es, stats) ← sweepOrphans allDocIDs idx es stats
  let es := (pruneDir es).1
  .ok (stats, es)

end GranolaSync

/-! ## Auxiliary observations on the filesystem model -/

open GranolaSync

mutual

/-- Number of directories in an entry list (recursively). -/
def dirCount : Entries → Nat
  | [] => 0
  | node :: rest => nodeDirCount node + dirCount rest

/-- Number of directories contributed by one entry. -/
def nodeDirCount : FsNode → Nat
  | .file _ _ _ => 0
  | .dir _ cs => 1 + dirCount cs

end

mutual

/-- Whether some directory in the entry list is empty (recursively). -/
def hasEmptyDir : Entries → Bool
  | [] => false
  | node :: rest => nodeHasEmptyDir node || hasEmptyDir rest

/-- Whether this entry is or contains an empty directory. -/
def nodeHasEmptyDir : FsNode → Bool
  | .file _ _ _ => false
  | .dir _ cs => cs.isEmpty || hasEmptyDir cs

end

mutual

/-- The prune walk preserves every file, removes at most one directory,
and leaves the tree unchanged whenever it does not abort. -/
theorem pruneDir_ok : ∀ es : Entries,
    walkFiles (pruneDir es).1 = walkFiles es ∧
    dirCount (pruneDir es).1 ≤ dirCount es ∧
    dirCount es ≤ dirCount (pruneDir es).1 + 1 ∧
    ((pruneDir es).2 = false → (pruneDir es).1 = es)
  | [] => by simp [pruneDir]
  | node :: rest => by
    have hn := pruneNode_ok node
    have hr := pruneDir_ok rest
    rcases hpn : pruneNode node with ⟨on2, ab⟩
    rcases on2 with _ | n2
    · have h1 := hn.1 (by rw [hpn])
      simp only [pruneDir, hpn, walkFiles, dirCount]
      refine ⟨by rw [h1.1]; simp, by omega, by omega, by simp⟩
    · have h2 := hn.2 n2 (by rw [hpn])
      cases ab with
      | true =>
        simp only [pruneDir, hpn, walkFiles, dirCount]
        refine ⟨by rw [h2.1], by have := h2.2.1; omega,
          by have := h2.2.2.1; omega, by simp⟩
      | false =>
        have hnode : n2 = node := h2.2.2.2 (by rw [hpn])
        subst hnode
        simp only [pruneDir, hpn, walkFiles, dirCount]
        refine ⟨by rw [hr.1], by have := hr.2.1; omega,
          by have := hr.2.2.1; omega, ?_⟩
        intro hfalse
        rw [hr.2.2.2 hfalse]

/-- The visit of one entry: removal only happens for an empty directory,
and a non-aborting visit returns the entry unchanged. -/
theorem pruneNode_ok : ∀ node : FsNode,
    ((pruneNode node).1 = none → walkNode node = [] ∧ nodeDirCount node = 1) ∧
    (∀ n2, (pruneNode node).1 = some n2 →
      walkNode n2 = walkNode node ∧ nodeDirCount n2 ≤ nodeDirCount node ∧
      nodeDirCount node ≤ nodeDirCount n2 + 1 ∧
      ((pruneNode node).2 = false → n2 = node))
  | .file n c m => by simp [pruneNode]
  | .dir n cs => by
    by_cases hcs : cs.isEmpty
    · have hnil : cs = [] := List.isEmpty_iff.mp hcs
      subst hnil
      simp [pruneNode, walkNode, walkFiles, nodeDirCount, dirCount]
    · have h := pruneDir_ok cs
      have hpn : pruneNode (.dir n cs) =
          (some (.dir n (pruneDir cs).1), (pruneDir cs).2) := by
        simp [pruneNode, hcs]
      rw [hpn]
      refine ⟨by simp, ?_⟩
      intro n2 h2
      have hn2 : n2 = FsNode.dir n (pruneDir cs).1 := by
        simpa using h2.symm
      subst hn2
      refine ⟨by simp [walkNode, h.1], ?_, ?_, ?_⟩
      · simp only [nodeDirCount]
        have := h.2.1
        omega
      · simp only [nodeDirCount]
        have := h.2.2.1
        omega
      · intro hfalse
        rw [h.2.2.2 hfalse]

end

/-! ## Lemmas about the filename policy -/

/-- `lastIdx` finds nothing in a string avoiding the character. -/
theorem lastIdx_eq_none {c : Char} : ∀ {s : Str}, c ∉ s → lastIdx c s = none
  | [], _ => rfl
  | x :: xs, h => by
    have hx : ¬x = c := fun he => h (he ▸ List.mem_cons_self x xs)
    have hxs : c ∉ xs := fun hm => h (List.mem_cons_of_mem x hm)
    simp [lastIdx, lastIdx_eq_none hxs, hx]

/-- The last underscore of `xs ++ "_" ++ s` with `s` underscore-free is the
separator, at index `xs.length`. -/
theorem lastIdx_sep : ∀ (xs : Str) (s : Str), '_' ∉ s →
    lastIdx '_' (xs ++ '_' :: s) = some xs.length
  | [], s, h => by simp [lastIdx, lastIdx_eq_none h]
  | x :: xs, s, h => by
    simp [lastIdx, lastIdx_sep xs s h]

/-- Trimming an appended suffix recovers the left part. -/
theorem trimSuffix_append (xs s : Str) : trimSuffix (xs ++ s) s = xs := by
  unfold trimSuffix
  have hsuf : s.isSuffixOf (xs ++ s) := by
    rw [List.isSuffixOf_iff_suffix]
    exact List.suffix_append xs s
  simp [hsuf, List.take_left]

/-- The extraction applied to a filename of the generated shape
`N ++ "_" ++ s ++ ".txt"`, with `s` of length 8 and underscore-free,
returns exactly `s`. -/
theorem extract_of_shape (N s : Str) (hlen : s.length = 8) (hu : '_' ∉ s) :
    GranolaSync.extractIDFromFilename (N ++ ('_' :: s) ++ ".txt".data) = s := by
  unfold GranolaSync.extractIDFromFilename
  rw [trimSuffix_append (N ++ '_' :: s) (".txt".data)]
  dsimp only
  rw [lastIdx_sep N s hu]
  have hlen2 : (N ++ '_' :: s).length = N.length + 1 + 8 := by
    simp [List.length_append, hlen]
  have hne : ¬(N.length = (N ++ '_' :: s).length - 1) := by
    rw [hlen2]; omega
  simp only [hne, if_false]
  have hdrop : (N ++ '_' :: s).drop (N.length + 1) = s := by
    have : N ++ '_' :: s = (N ++ ['_']) ++ s := by simp
    rw [this]
    have hl : (N ++ ['_']).length = N.length + 1 := by simp
    rw [← hl, List.drop_left]
  rw [hdrop]
  simp [hlen]

/-- Claim C5 (amended): for every title and every id of length at least 8
whose first 8 characters contain no underscore, extracting the embedded id
fragment from the generated filename recovers exactly the first 8
characters of the id. -/
theorem extract_recovers_short_id_general (title id : Str) (h8 : 8 ≤ id.length)
    (hu : '_' ∉ id.take 8) :
    GranolaSync.extractIDFromFilename (GranolaSync.generateFilename title id) =
      id.take 8 := by
  have hlen : (id.take 8).length = 8 := by
    rw [List.length_take]
    omega
  have hshort : (if id.length ≥ 8 then id.take 8 else id) = id.take 8 := if_pos h8
  unfold GranolaSync.generateFilename
  dsimp only
  rw [hshort]
  exact extract_of_shape _ _ hlen hu

/-! ## Claims -/

/-- Claim C1 (code bug): the spec says a second sync run over unchanged
input counts only Skipped.  In the code, `scanExistingFiles` keys the index
by the 8-character fragment extracted from the filename while
`processDocument` and the orphan sweep look up the full document id, so for
the 9-character id "123456789" (with declared update time 5, before the
first run's write time 10) the second run re-Adds the file and then deletes
it as an orphan: stats (added 1, updated 0, moved 0, deleted 1, skipped 0)
and an empty output tree. -/
theorem sync_rerun_not_idempotent :
    ((do
      let r1 ← GranolaSync.Sync [⟨"123456789".data, "t".data, 5, "hi".data, []⟩]
        ["123456789".data] 10 []
      let r2 ← GranolaSync.Sync [⟨"123456789".data, "t".data, 5, "hi".data, []⟩]
        ["123456789".data] 20 r1.2
      pure (r2.1, walkFiles r2.2) : Except String _)).toOption =
    some (⟨1, 0, 0, 1, 0⟩, []) := by decide

/-- Claim C2 (code bug): the spec says ids processed in step 2 are removed
from the existing-file index and never swept.  `processDocument` deletes
the full id from an index keyed by 8-character fragments, so the delete
misses and the just-processed, valid document's file is swept as an
orphan on the second run: one Deleted and an empty output tree. -/
theorem sync_processed_id_swept_as_orphan :
    ((do
      let r1 ← GranolaSync.Sync [⟨"abcdefgh-42".data, "note".data, 3, "x".data, []⟩]
        ["abcdefgh-42".data] 7 []
      let r2 ← GranolaSync.Sync [⟨"abcdefgh-42".data, "note".data, 3, "x".data, []⟩]
        ["abcdefgh-42".data] 9 r1.2
      pure (r2.1.deleted, walkFiles r2.2) : Except String _)).toOption =
    some (1, []) := by decide

/-- Claim C3 (code bug): the spec says a target path that already holds a
file is rewritten only when the declared update time is strictly newer
than the file's mtime.  Because the index is keyed by the short id, the
lookup under the full id "123456789" misses, the on-disk file (mtime 10)
is not recognised as existing, and despite the older declared time 5 it is
unconditionally rewritten (content "new", mtime 20) and counted Added,
with zero Skipped. -/
theorem sync_stale_file_rewritten :
    ((GranolaSync.Sync [⟨"123456789".data, "t".data, 5, "new".data, []⟩]
      ["123456789".data, "12345678".data] 20
      [.file "t_12345678.txt".data "old".data 10]).toOption).map
      (fun r => (r.1, walkFiles r.2)) =
    some (⟨1, 0, 0, 0, 0⟩, [(["t_12345678.txt".data], "new".data, 20)]) := by decide

/-- Claim C4, counterexample: `getTargetPaths` performs no deduplication;
a folders list with the same name twice yields the same path twice, not
one path per distinct folder name. -/
theorem getTargetPaths_duplicate_folders_cex :
    GranolaSync.getTargetPaths ["A".data, "A".data] "f.txt".data =
      [["A".data, "f.txt".data], ["A".data, "f.txt".data]] ∧
    ¬ (GranolaSync.getTargetPaths ["A".data, "A".data] "f.txt".data).Nodup := by
  decide

/-- Claim C4 (amended): the computed destination-path list has one entry
per entry of the folders list — duplicates preserved — and a document
with an empty folders list maps to exactly one path at the root. -/
theorem getTargetPaths_one_path_per_entry (folders : List Str) (filename : Str) :
    (GranolaSync.getTargetPaths folders filename).length = max 1 folders.length ∧
    ∀ p : GranolaSync.FPath, p ∈ GranolaSync.getTargetPaths folders filename ↔
      (folders = [] ∧ p = [filename]) ∨
      ∃ f, f ∈ folders ∧ p = [GranolaSync.sanitizeFolderName f, filename] := by
  unfold GranolaSync.getTargetPaths
  by_cases h : folders = []
  · subst h
    exact ⟨by simp, by intro p; simp⟩
  · rw [if_neg h]
    constructor
    · have h1 : 1 ≤ folders.length := List.length_pos.mpr h
      simp [List.length_map]
      omega
    · intro p
      simp [List.mem_map, h, eq_comm]

/-- Claim C5, counterexample: for the id "a_bcdefgh" (length 9, underscore
among its first 8 characters) the extraction of the generated filename
returns the empty string, not the first 8 characters of the id. -/
theorem extract_underscore_id_cex :
    GranolaSync.extractIDFromFilename
      (GranolaSync.generateFilename "t".data "a_bcdefgh".data) = [] ∧
    "a_bcdefgh".data.take 8 ≠ [] := by decide

/-- Claim C5, witness: the amended round-trip at title "doc" and the
underscore-free id "123456789". -/
theorem extract_recovers_short_id_witness :
    (8 ≤ "123456789".data.length ∧ '_' ∉ "123456789".data.take 8) ∧
    GranolaSync.extractIDFromFilename
      (GranolaSync.generateFilename "doc".data "123456789".data) =
      "123456789".data.take 8 :=
  ⟨⟨by decide, by decide⟩,
   extract_recovers_short_id_general "doc".data "123456789".data
     (by decide) (by decide)⟩

/-- Claim C6 (code bug): the spec says the k-th occurrence of a candidate
name gets the suffix `_k`, all assigned names distinct.  The writer-package
`makeUnique` keys its counter by candidate name but its caller increments
the counter of the *assigned* name, so for three documents with the same
candidate "a" the counter of "a" stays 1 and both the second and third
occurrences are assigned "a_2": a duplicate. -/
theorem writer_makeUnique_duplicate_names :
    GranolaWriter.assignFilenames ["a".data, "a".data, "a".data] [] =
      ["a".data, "a_2".data, "a_2".data] ∧
    ¬ (GranolaWriter.assignFilenames ["a".data, "a".data, "a".data] []).Nodup := by
  decide

/-- Claim C7, counterexample: for a document whose only content source is
the last-viewed panel's raw markup, `getNotesContent` returns the markup
verbatim, with tags unstripped and entities undecoded — not "hi". -/
theorem getNotesContent_raw_html_cex :
    GranolaCmd.getNotesContent
      ⟨"id1".data, "t".data, "x".data, [], none, some ⟨none, "<b>hi</b>".data⟩⟩ =
      "<b>hi</b>".data ∧
    GranolaCmd.getNotesContent
      ⟨"id1".data, "t".data, "x".data, [], none, some ⟨none, "<b>hi</b>".data⟩⟩ ≠
      "hi".data := by decide

/-- Claim C7 (amended): content resolution tries, in order, (1) the flat
notes text when non-empty; (2) when the primary notes tree is present, its
render — returned even when the render is empty; (3) when the last-viewed
panel's tree is present, its render — again even when empty; (4) the
panel's raw markup when non-empty, returned verbatim with no tag stripping
or entity decoding; (5) the legacy flat content field. -/
theorem getNotesContent_priority_chain (doc : ApiDocument) :
    (doc.notesPlain ≠ [] → GranolaCmd.getNotesContent doc = doc.notesPlain) ∧
    (doc.notesPlain = [] → ∀ n, doc.notes = some n →
      GranolaCmd.getNotesContent doc = Prosemirror.ConvertToPlainText (some n)) ∧
    (doc.notesPlain = [] → doc.notes = none →
      ∀ p c, doc.lastViewedPanel = some p → p.content = some c →
      GranolaCmd.getNotesContent doc = Prosemirror.ConvertToPlainText (some c)) ∧
    (doc.notesPlain = [] → doc.notes = none →
      ∀ p, doc.lastViewedPanel = some p → p.content = none →
      p.originalContent ≠ [] →
      GranolaCmd.getNotesContent doc = p.originalContent) ∧
    (doc.notesPlain = [] → doc.notes = none →
      ∀ p, doc.lastViewedPanel = some p → p.content = none →
      p.originalContent = [] →
      GranolaCmd.getNotesContent doc = doc.content) ∧
    (doc.notesPlain = [] → doc.notes = none → doc.lastViewedPanel = none →
      GranolaCmd.getNotesContent doc = doc.content) := by
  refine ⟨?_, ?_, ?_, ?_, ?_, ?_⟩
  · intro h
    simp [GranolaCmd.getNotesContent, h]
  · intro h n hn
    simp [GranolaCmd.getNotesContent, h, hn]
  · intro h hn p c hp hc
    simp [GranolaCmd.getNotesContent, h, hn, hp, hc]
  · intro h hn p hp hc hoc
    simp [GranolaCmd.getNotesContent, h, hn, hp, hc, hoc]
  · intro h hn p hp hc hoc
    simp [GranolaCmd.getNotesContent, h, hn, hp, hc, hoc]
  · intro h hn hp
    simp [GranolaCmd.getNotesContent, h, hn, hp]

/-- Claim C7, witness: the fourth stage of the chain at a concrete
document whose panel holds raw markup only. -/
theorem getNotesContent_priority_chain_witness :
    GranolaCmd.getNotesContent
      ⟨"i".data, "t".data, "c".data, [], none, some ⟨none, "<p>x</p>".data⟩⟩ =
      "<p>x</p>".data :=
  (getNotesContent_priority_chain _).2.2.2.1 rfl rfl _ rfl rfl (by decide)

/-- Claim C8, counterexample: when the stat of the target path fails (the
path does not exist in the filesystem), `shouldUpdateFile` does not
propagate an error — it absorbs the failure and answers "write". -/
theorem shouldUpdateFile_stat_failure_cex :
    statPath ["missing.txt".data] [] = none ∧
    GranolaSync.shouldUpdateFile [] ["missing.txt".data] 5 = .ok true :=
  ⟨rfl, rfl⟩

/-- Claim C8 (amended): `shouldUpdateFile` never returns an error: a stat
failure is absorbed and treated as "write the file", and a successful stat
yields the strict timestamp comparison. -/
theorem shouldUpdateFile_never_errors (es : Entries) (p : GranolaSync.FPath)
    (t : Int) :
    (statPath p es = none → GranolaSync.shouldUpdateFile es p t = .ok true) ∧
    (∀ info, statPath p es = some info →
      GranolaSync.shouldUpdateFile es p t = .ok (decide (t > info.mtime))) := by
  constructor
  · intro h
    simp [GranolaSync.shouldUpdateFile, h]
  · intro info h
    simp [GranolaSync.shouldUpdateFile, h]

/-- Claim C8, witness: the absorbed stat failure at a concrete path. -/
theorem shouldUpdateFile_never_errors_witness :
    GranolaSync.shouldUpdateFile [] ["a.txt".data] 3 = .ok true :=
  (shouldUpdateFile_never_errors [] ["a.txt".data] 3).1 rfl

/-- Claim C9, counterexample: starting from `A/B` with `B` an empty
directory and `A` containing only `B`, an (empty) sync run succeeds, `B`
is pruned, and `A` remains as an empty directory below the output root. -/
theorem empty_dir_survives_sync_cex :
    ((GranolaSync.Sync [] [] 10
      [FsNode.dir "A".data [FsNode.dir "B".data []]]).toOption).map
      (fun r => (r.1, hasEmptyDir r.2, walkFiles r.2)) =
    some (⟨0, 0, 0, 0, 0⟩, true, []) := rfl

/-- Claim C9 (amended): the prune walk preserves every file; it removes at
most one directory per run (the first one found empty, after which the
walk aborts); and when it does not abort it leaves the tree unchanged —
so directories that become empty only through pruning survive the run. -/
theorem pruneDir_removes_at_most_one_dir (es : Entries) :
    walkFiles (GranolaSync.pruneDir es).1 = walkFiles es ∧
    dirCount (GranolaSync.pruneDir es).1 ≤ dirCount es ∧
    dirCount es ≤ dirCount (GranolaSync.pruneDir es).1 + 1 ∧
    ((GranolaSync.pruneDir es).2 = false → (GranolaSync.pruneDir es).1 = es) :=
  pruneDir_ok es

/-- Claim C9, witness: the prune guarantees at a concrete one-file tree,
where the non-aborting walk leaves everything in place. -/
theorem pruneDir_removes_at_most_one_dir_witness :
    walkFiles (GranolaSync.pruneDir [FsNode.file "a.txt".data "x".data 1]).1 =
      walkFiles [FsNode.file "a.txt".data "x".data 1] ∧
    (GranolaSync.pruneDir [FsNode.file "a.txt".data "x".data 1]).1 =
      [FsNode.file "a.txt".data "x".data 1] :=
  ⟨(pruneDir_removes_at_most_one_dir _).1,
   (pruneDir_removes_at_most_one_dir _).2.2.2 rfl⟩

/-- Claim C10, counterexample: a ProseMirror doc whose children list is
present but empty renders to "\n", not to the empty string. -/
theorem convertToMarkdown_empty_children_cex :
    Prosemirror.ConvertToMarkdown (some ⟨"doc", some []⟩) = "\n".data ∧
    ("\n".data : Str) ≠ [] := by decide

/-- Claim C10 (amended): an absent tree, a root whose type is not "doc",
or an absent (nil) children list renders to ""; a present but empty
children list renders to "\n" — the trimmed empty body plus the
unconditional trailing newline. -/
theorem convertToMarkdown_degenerate (d : Option PMDoc) :
    (d = none → Prosemirror.ConvertToMarkdown d = []) ∧
    (∀ t c, d = some ⟨t, c⟩ → t ≠ "doc" → Prosemirror.ConvertToMarkdown d = []) ∧
    (∀ t, d = some ⟨t, none⟩ → Prosemirror.ConvertToMarkdown d = []) ∧
    (d = some ⟨"doc", some []⟩ → Prosemirror.ConvertToMarkdown d = "\n".data) := by
  refine ⟨?_, ?_, ?_, ?_⟩
  · intro h
    subst h
    rfl
  · intro t c h ht
    subst h
    simp [Prosemirror.ConvertToMarkdown, ht]
  · intro t h
    subst h
    by_cases ht : t = "doc"
    · subst ht
      rfl
    · simp [Prosemirror.ConvertToMarkdown, ht]
  · intro h
    subst h
    decide

/-- Claim C10, witness: the empty-children case evaluated concretely. -/
theorem convertToMarkdown_degenerate_witness :
    Prosemirror.ConvertToMarkdown (some ⟨"doc", some []⟩) = "\n".data :=
  (convertToMarkdown_degenerate (some ⟨"doc", some []⟩)).2.2.2 rfl
